import Mathlib

/-!
Verification of the kobun-app spaced-repetition core.

The definitions below are a shallow embedding of the TypeScript source:

* `nextSRS`, `isDue`, `defaultStat`, `loadStats` from `src/utils/srs.ts`;
* `shuffle`, `shuffleSeeded`, `pickRandom` (Fisher–Yates) from the shuffle
  utility module;
* `startSession` (session composition) from the `useQuizLogic` hook;
* `validateSRSStats` from `src/utils/validation.ts`.

Modelling conventions: JavaScript numbers are rationals (`ℚ`);
`Math.round x` is `⌊x + 1/2⌋` (JS rounds half toward +∞); each call of
`Math.random()` inside a Fisher–Yates loop is modelled by an explicit draw
oracle `draw : ℕ → ℕ` giving the chosen index for each loop position, so
theorems quantify over every possible sequence of draws; the seeded
generator (`createSeededRandom`) is the LCG state transition `lcgNext`,
threaded through the loop exactly as the closure does in the source, and
the seeded loop runs on a `JsArray` that models JS index semantics —
including the negative indices a negative seed produces, whose
destructuring swap writes `undefined` into the array;
`Date.now()` is an explicit `now` argument; `localStorage.getItem` +
`JSON.parse` is an explicit `Except`-valued read result.
-/

/-! ### Review-stat model (`src/utils/srs.ts`) -/

/-- JS `Math.round`: round half toward positive infinity. -/
def jround (x : ℚ) : ℤ := ⌊x + 1/2⌋

/-- The per-item review state (`ReviewStat` in `src/types/quiz.ts`).
All five fields are JS numbers, embedded as rationals. -/
structure ReviewStat where
  ef : ℚ
  reps : ℚ
  interval : ℚ
  dueAt : ℚ
  last : ℚ
deriving DecidableEq, Repr

/-- `defaultStat` from `srs.ts`: the state used for a never-reviewed item. -/
def defaultStat : ReviewStat :=
  { ef := 25/10, reps := 0, interval := 0, dueAt := 0, last := 0 }

/-- `nextSRS(prev, quality)` from `srs.ts` (simplified SM-2).
`now` makes the `Date.now()` read explicit. -/
def nextSRS (prev : Option ReviewStat) (quality : ℚ) (now : ℚ) : ReviewStat :=
  let s := prev.getD defaultStat
  let q := max 0 (min 5 quality)
  let ri : ℚ × ℚ :=
    if q < 3 then
      (0, 1)
    else
      let r := s.reps + 1
      if r = 1 then (r, 1)
      else if r = 2 then (r, 6)
      else (r, ((jround (s.interval * s.ef) : ℤ) : ℚ))
  let ef1 := s.ef + (1/10 - (5 - q) * (8/100 + (5 - q) * (2/100)))
  let ef2 := max (13/10) (min (25/10) ef1)
  { ef := ef2, reps := ri.1, interval := ri.2,
    dueAt := now + ri.2 * (24 * 60 * 60 * 1000), last := now }

/-- `isDue(stat, currentTime)` from `srs.ts`. -/
def isDue (stat : Option ReviewStat) (currentTime : ℚ) : Bool :=
  match stat with
  | none => true
  | some st => st.dueAt ≤ currentTime

/-- The §3 `ReviewStat` invariant of the specification. -/
def statInv (s : ReviewStat) : Prop :=
  13/10 ≤ s.ef ∧ s.ef ≤ 25/10 ∧ 0 ≤ s.reps ∧ 0 ≤ s.interval ∧
    s.dueAt = s.last + s.interval * 86400000

instance (s : ReviewStat) : Decidable (statInv s) := by
  unfold statInv; infer_instance

/-! ### Shuffle module (Fisher–Yates utilities) -/

universe u
variable {α : Type u}

/-- One Fisher–Yates step of the unseeded `shuffle`:
`[result[i], result[j]] = [result[j], result[i]]`. There `Math.random()`
lies in `[0, 1)`, so both indices are always in bounds
(`j = ⌊rand·(i+1)⌋ ≤ i`); the out-of-bounds fallback only makes the
embedding total. The seeded loop instead uses `jsSwap`, whose index can go
negative. -/
def swapIdx (l : List α) (i j : ℕ) : List α :=
  match l[i]?, l[j]? with
  | some x, some y => (l.set i y).set j x
  | _, _ => l

/-- The `for (let i = result.length - 1; i > 0; i--)` loop of `shuffle`,
with `draw i` the index `Math.floor(Math.random() * (i + 1))` drawn at
position `i`. -/
def fyLoop (draw : ℕ → ℕ) : ℕ → List α → List α
  | 0, l => l
  | p+1, l => fyLoop draw p (swapIdx l (p+1) (draw (p+1)))

/-- `shuffle(arr)`: copies the input, then runs Fisher–Yates; arrays of
length at most 1 are returned as a fresh copy immediately. -/
def shuffle (draw : ℕ → ℕ) (l : List α) : List α :=
  if l.length ≤ 1 then l else fyLoop draw (l.length - 1) l

/-- One step of the LCG inside `createSeededRandom`:
`state = (state * 1103515245 + 12345) % (2 ** 31)` (JS `%` truncates toward
zero, i.e. `Int.tmod`). -/
def lcgNext (state : ℤ) : ℤ := (state * 1103515245 + 12345).tmod (2 ^ 31)

/-- The index drawn by `shuffleSeeded` at loop position `i`:
`Math.floor(rng() * (i + 1))` where `rng()` returned `state / 2 ** 31`.
For a negative LCG state (possible when the seed is negative) this index is
negative, exactly as in the source. -/
def lcgJ (state : ℤ) (i : ℕ) : ℤ :=
  ⌊(state : ℚ) / 2 ^ 31 * ((i : ℚ) + 1)⌋

/-- A JS array as `shuffleSeeded` manipulates it: `cells` are the indexed
slots `0 .. length-1` (a slot holding `undefined` is `none`), and `props`
are the integer-keyed properties outside that range, which an assignment
like `result[-2] = v` creates without changing the array's length. -/
structure JsArray (α : Type u) where
  cells : List (Option α)
  props : ℤ → Option α

/-- Reading `result[j]`: an in-range slot, else the (possibly absent)
out-of-range property. -/
def jsRead (a : JsArray α) (j : ℤ) : Option α :=
  if 0 ≤ j ∧ j < (a.cells.length : ℤ) then (a.cells[j.toNat]?).getD none
  else a.props j

/-- Writing `result[j] = v`: an in-range write updates the slot, an
out-of-range write creates a stray property and leaves the slots alone. -/
def jsWrite (a : JsArray α) (j : ℤ) (v : Option α) : JsArray α :=
  if 0 ≤ j ∧ j < (a.cells.length : ℤ) then
    { a with cells := a.cells.set j.toNat v }
  else
    { a with props := fun k => if k = j then v else a.props k }

/-- The destructuring swap `[result[i], result[j]] = [result[j], result[i]]`:
both reads happen first, then the two writes. With an out-of-range `j` this
writes `undefined` into slot `i` and loses that slot's old value to a stray
property. -/
def jsSwap (a : JsArray α) (i j : ℤ) : JsArray α :=
  let vi := jsRead a i
  let vj := jsRead a j
  jsWrite (jsWrite a i vj) j vi

/-- The Fisher–Yates loop of `shuffleSeeded`, threading the LCG state the
way the `rng` closure does and swapping with full JS index semantics. -/
def fyLoopSeeded : ℤ → ℕ → JsArray α → JsArray α
  | _, 0, a => a
  | st, p+1, a =>
    fyLoopSeeded (lcgNext st) p
      (jsSwap a ((p : ℤ) + 1) (lcgJ (lcgNext st) (p+1)))

/-- `shuffleSeeded(arr, seed)`: deterministic Fisher–Yates driven by
`createSeededRandom(seed)`. The result is the final indexed slots of the
JS array: a slot is `none` exactly when the returned array holds
`undefined` there (which happens when a negative seed produces a negative
drawn index). -/
def shuffleSeeded (l : List α) (seed : ℤ) : List (Option α) :=
  if l.length ≤ 1 then l.map some
  else (fyLoopSeeded seed (l.length - 1) ⟨l.map some, fun _ => none⟩).cells

/-- `pickRandom(arr, count)`: a full shuffle when `count >= arr.length`,
empty when `count <= 0`, otherwise the first `count` elements of a
shuffle. -/
def pickRandom (draw : ℕ → ℕ) (l : List α) (count : ℤ) : List α :=
  if (l.length : ℤ) ≤ count then shuffle draw l
  else if count ≤ 0 then []
  else (shuffle draw l).take count.toNat

/-! ### Session composer (`startSession` in the `useQuizLogic` hook) -/

/-- `Example` from `src/types/quiz.ts`. -/
structure Example where
  jp : String
  translation : Option String
  source : Option String
deriving DecidableEq, Repr

/-- `Question` from `src/types/quiz.ts` (the source field `lemma` is a Lean
keyword and is embedded as `lemmaText`). -/
structure Question where
  id : String
  wordNumber : ℚ
  meaningId : String
  lemmaText : String
  sense : String
  examples : List Example
deriving DecidableEq, Repr

/-- The `due` bucket of `startSession`: items with a stat whose
`(st.dueAt ?? 0) <= t`. -/
def dueFilter (stats : String → Option ReviewStat) (t : ℚ)
    (pool : List Question) : List Question :=
  pool.filter fun q =>
    match stats q.id with
    | some st => decide (st.dueAt ≤ t)
    | none => false

/-- The `fresh` bucket of `startSession`: items with no stat (`!st`). -/
def freshFilter (stats : String → Option ReviewStat)
    (pool : List Question) : List Question :=
  pool.filter fun q => (stats q.id).isNone

/-- The `other` bucket of `startSession`: items with a stat not yet due. -/
def otherFilter (stats : String → Option ReviewStat) (t : ℚ)
    (pool : List Question) : List Question :=
  pool.filter fun q =>
    match stats q.id with
    | some st => decide (t < st.dueAt)
    | none => false

/-- JS `arr.slice(0, e)`: a negative end index counts from the end of the
array (`max(length + e, 0)`). -/
def jsSlice0 (l : List α) (e : ℤ) : List α :=
  l.take (if e < 0 then ((l.length : ℤ) + e).toNat else e.toNat)

/-- `startSession` from the `useQuizLogic` hook: early-return on an empty
pool, partition into due/fresh/other, shuffle each bucket, concatenate in
that priority order, and truncate with `.slice(0, numQuestions)`.
The three buckets are shuffled by independent `Math.random()` draw
sequences `d1`, `d2`, `d3`; `t` is the `Date.now()` read. -/
def startSession (d1 d2 d3 : ℕ → ℕ) (pool : List Question)
    (stats : String → Option ReviewStat) (numQuestions : ℤ) (t : ℚ) :
    List Question :=
  if pool.length = 0 then []
  else
    jsSlice0
      (shuffle d1 (dueFilter stats t pool) ++
        shuffle d2 (freshFilter stats pool) ++
        shuffle d3 (otherFilter stats t pool))
      numQuestions

/-- Priority class of an item under `startSession`'s partition:
0 = due, 1 = fresh (no stat), 2 = other (not yet due). -/
def bucketRank (stats : String → Option ReviewStat) (t : ℚ)
    (q : Question) : ℕ :=
  match stats q.id with
  | none => 1
  | some st => if st.dueAt ≤ t then 0 else 2

/-! ### Review-stat store (`loadStats` in `srs.ts`, `validateSRSStats` in
`validation.ts`) -/

/-- A persisted stat record as seen after `JSON.parse`: each of the five
expected fields is `some q` when present and a JS number, `none` when
missing or of another type (the `typeof stat.ef === 'number'` checks). -/
structure RawStat where
  ef : Option ℚ
  reps : Option ℚ
  interval : Option ℚ
  dueAt : Option ℚ
  last : Option ℚ
deriving DecidableEq, Repr

/-- A value stored under a key in the parsed blob: an object (candidate
stat record) or something the `value && typeof value === 'object'` guard
rejects. -/
inductive RawVal
  | obj (s : RawStat)
  | nonObj
deriving DecidableEq, Repr

/-- A parsed `localStorage` blob: `nonObj` for `null`/arrays/non-objects
(the top-level guard of `validateSRSStats`), else the key–value entries. -/
inductive RawData
  | nonObj
  | obj (entries : List (String × RawVal))
deriving DecidableEq, Repr

/-- The per-record check inside `validateSRSStats`: all five fields are
numbers, `1.3 <= ef <= 2.5`, `reps >= 0`, `interval >= 0`. -/
def checkRawStat (s : RawStat) : Option ReviewStat :=
  match s.ef, s.reps, s.interval, s.dueAt, s.last with
  | some ef, some reps, some itv, some due, some last =>
    if 13/10 ≤ ef ∧ ef ≤ 25/10 ∧ 0 ≤ reps ∧ 0 ≤ itv then
      some ⟨ef, reps, itv, due, last⟩
    else none
  | _, _, _, _, _ => none

/-- One entry of the loop in `validateSRSStats` (the `typeof key ===
'string'` conjunct always holds: JSON object keys are strings). -/
def checkEntry : String × RawVal → Option (String × ReviewStat)
  | (k, RawVal.obj s) => (checkRawStat s).map fun st => (k, st)
  | (_, RawVal.nonObj) => none

/-- `validateSRSStats` from `src/utils/validation.ts`: keep exactly the
entries whose record passes the per-record check. -/
def validateSRSStats : RawData → List (String × ReviewStat)
  | RawData.nonObj => []
  | RawData.obj entries => entries.filterMap checkEntry

/-- `loadStats` from `srs.ts`: `raw ? JSON.parse(raw) : {}` inside
`try/catch`. The argument models the combined `localStorage.getItem` +
`JSON.parse` outcome: a thrown error, a falsy raw value, or parsed data.
No per-record validation happens here. -/
def loadStats (read : Except Unit (Option RawData)) : RawData :=
  match read with
  | Except.error _ => RawData.obj []
  | Except.ok none => RawData.obj []
  | Except.ok (some d) => d

/-- A persisted record violating the §3 invariant: easiness factor 3. -/
def badStat : RawStat := ⟨some 3, some 1, some 1, some 0, some 0⟩

/-- A parsed blob holding only the invalid record `badStat`. -/
def badData : RawData := RawData.obj [("w1", RawVal.obj badStat)]

/-- A persisted record satisfying every check of `validateSRSStats`. -/
def goodStat : RawStat := ⟨some 2, some 1, some 1, some 0, some 0⟩

/-- Concrete questions used as witness inputs. -/
def sampleQ1 : Question := ⟨"a", 1, "1-1", "wa", "sa", []⟩

/-- Concrete questions used as witness inputs. -/
def sampleQ2 : Question := ⟨"b", 2, "1-2", "wb", "sb", []⟩

/-! ### Helper lemmas -/

lemma jround_nonneg {x : ℚ} (hx : 0 ≤ x) : (0 : ℤ) ≤ jround x := by
  unfold jround
  exact Int.le_floor.mpr (by push_cast; linarith)

lemma cons_set_perm (a y : α) :
    ∀ (t : List α) (m : ℕ), t[m]? = some y → (y :: t.set m a).Perm (a :: t)
  | b :: t', 0, hy => by
    simp only [List.getElem?_cons_zero, Option.some.injEq] at hy
    rw [← hy]
    simpa [List.set] using List.Perm.swap a b t'
  | b :: t', m+1, hy => by
    simp only [List.getElem?_cons_succ] at hy
    have ih := cons_set_perm a y t' m hy
    have h1 : (y :: b :: t'.set m a).Perm (b :: y :: t'.set m a) :=
      List.Perm.swap b y _
    have h2 : (b :: y :: t'.set m a).Perm (b :: a :: t') := ih.cons b
    have h3 : (b :: a :: t').Perm (a :: b :: t') := List.Perm.swap a b t'
    simpa [List.set] using (h1.trans h2).trans h3

lemma set_set_perm :
    ∀ (l : List α) (i j : ℕ) (x y : α),
      l[i]? = some x → l[j]? = some y → ((l.set i y).set j x).Perm l
  | [], i, _, _, _, hi, _ => by simp at hi
  | a :: t, 0, 0, x, y, hi, hj => by
    simp only [List.getElem?_cons_zero, Option.some.injEq] at hi hj
    rw [← hi, ← hj]
    simp [List.set]
  | a :: t, 0, k+1, x, y, hi, hj => by
    simp only [List.getElem?_cons_zero, Option.some.injEq] at hi
    simp only [List.getElem?_cons_succ] at hj
    rw [← hi]
    simpa [List.set] using cons_set_perm a y t k hj
  | a :: t, m+1, 0, x, y, hi, hj => by
    simp only [List.getElem?_cons_zero, Option.some.injEq] at hj
    simp only [List.getElem?_cons_succ] at hi
    rw [← hj]
    simpa [List.set] using cons_set_perm a x t m hi
  | a :: t, m+1, k+1, x, y, hi, hj => by
    simp only [List.getElem?_cons_succ] at hi hj
    simpa [List.set] using (set_set_perm t m k x y hi hj).cons a

lemma swapIdx_perm (l : List α) (i j : ℕ) : (swapIdx l i j).Perm l := by
  unfold swapIdx
  split
  · next x y hi hj => exact set_set_perm l i j x y hi hj
  · exact List.Perm.refl l

lemma fyLoop_perm (draw : ℕ → ℕ) :
    ∀ (p : ℕ) (l : List α), (fyLoop draw p l).Perm l
  | 0, l => List.Perm.refl l
  | p+1, l =>
    (fyLoop_perm draw p _).trans (swapIdx_perm l (p+1) (draw (p+1)))

lemma shuffle_perm (draw : ℕ → ℕ) (l : List α) : (shuffle draw l).Perm l := by
  unfold shuffle
  split
  · exact List.Perm.refl l
  · exact fyLoop_perm draw _ l

lemma lcgNext_bounds (st : ℤ) (h : 0 ≤ st) :
    0 ≤ lcgNext st ∧ lcgNext st < 2 ^ 31 := by
  unfold lcgNext
  constructor
  · exact Int.tmod_nonneg _ (by nlinarith)
  · exact Int.tmod_lt_of_pos _ (by norm_num)

lemma lcgJ_range (st : ℤ) (i : ℕ) (h0 : 0 ≤ st) (h1 : st < 2 ^ 31) :
    0 ≤ lcgJ st i ∧ lcgJ st i ≤ (i : ℤ) := by
  unfold lcgJ
  constructor
  · exact Int.le_floor.mpr (by push_cast; positivity)
  · have hlt1 : (st : ℚ) / 2 ^ 31 < 1 := by
      rw [div_lt_one (by norm_num)]
      exact_mod_cast h1
    have hip : (0 : ℚ) < (i : ℚ) + 1 := by positivity
    have hlt : (st : ℚ) / 2 ^ 31 * ((i : ℚ) + 1) < (i : ℚ) + 1 := by
      calc (st : ℚ) / 2 ^ 31 * ((i : ℚ) + 1) < 1 * ((i : ℚ) + 1) :=
            mul_lt_mul_of_pos_right hlt1 hip
        _ = (i : ℚ) + 1 := one_mul _
    have := Int.floor_lt.mpr (show (st : ℚ) / 2 ^ 31 * ((i : ℚ) + 1) <
      (((i : ℤ) + 1 : ℤ) : ℚ) by push_cast; linarith)
    omega

lemma jsSwap_cells_perm (a : JsArray α) (i j : ℤ)
    (hi0 : 0 ≤ i) (hi1 : i < (a.cells.length : ℤ))
    (hj0 : 0 ≤ j) (hj1 : j < (a.cells.length : ℤ)) :
    (jsSwap a i j).cells.Perm a.cells := by
  have hi' : i.toNat < a.cells.length := by omega
  have hj' : j.toNat < a.cells.length := by omega
  have hvi : a.cells[i.toNat]? = some a.cells[i.toNat] :=
    List.getElem?_eq_getElem hi'
  have hvj : a.cells[j.toNat]? = some a.cells[j.toNat] :=
    List.getElem?_eq_getElem hj'
  have e1 : jsRead a i = a.cells[i.toNat] := by
    unfold jsRead
    rw [if_pos ⟨hi0, hi1⟩, hvi]
    rfl
  have e2 : jsRead a j = a.cells[j.toNat] := by
    unfold jsRead
    rw [if_pos ⟨hj0, hj1⟩, hvj]
    rfl
  have e3 : jsSwap a i j =
      jsWrite (jsWrite a i (a.cells[j.toNat])) j (a.cells[i.toNat]) := by
    unfold jsSwap
    rw [e1, e2]
  have e4 : jsWrite a i (a.cells[j.toNat]) =
      { a with cells := a.cells.set i.toNat (a.cells[j.toNat]) } := by
    unfold jsWrite
    rw [if_pos ⟨hi0, hi1⟩]
  have e5 : jsWrite
      { a with cells := a.cells.set i.toNat (a.cells[j.toNat]) } j
        (a.cells[i.toNat]) =
      { a with cells := (a.cells.set i.toNat
          (a.cells[j.toNat])).set j.toNat (a.cells[i.toNat]) } := by
    unfold jsWrite
    rw [if_pos ⟨hj0, by simpa [List.length_set] using hj1⟩]
  rw [e3, e4, e5]
  exact set_set_perm a.cells i.toNat j.toNat _ _ hvi hvj

lemma fyLoopSeeded_cells_perm :
    ∀ (p : ℕ) (st : ℤ) (a : JsArray α), 0 ≤ st → p < a.cells.length →
      (fyLoopSeeded st p a).cells.Perm a.cells
  | 0, _, a, _, _ => List.Perm.refl _
  | p+1, st, a, hst, hp => by
    have hb := lcgNext_bounds st hst
    obtain ⟨hj0, hj1⟩ := lcgJ_range (lcgNext st) (p+1) hb.1 hb.2
    have hi1 : ((p : ℤ) + 1) < (a.cells.length : ℤ) := by
      omega
    have hj2 : lcgJ (lcgNext st) (p+1) < (a.cells.length : ℤ) := by
      push_cast at hj1
      omega
    have hswap := jsSwap_cells_perm a ((p : ℤ) + 1) (lcgJ (lcgNext st) (p+1))
      (by omega) hi1 hj0 hj2
    have hlen : (jsSwap a ((p : ℤ) + 1)
        (lcgJ (lcgNext st) (p+1))).cells.length = a.cells.length :=
      hswap.length_eq
    have ih := fyLoopSeeded_cells_perm p (lcgNext st)
      (jsSwap a ((p : ℤ) + 1) (lcgJ (lcgNext st) (p+1))) hb.1 (by omega)
    simp only [fyLoopSeeded]
    exact ih.trans hswap

lemma shuffleSeeded_perm_of_nonneg (l : List α) (seed : ℤ) (h : 0 ≤ seed) :
    (shuffleSeeded l seed).Perm (l.map some) := by
  unfold shuffleSeeded
  split
  · exact List.Perm.refl _
  · next hlen =>
    exact fyLoopSeeded_cells_perm (l.length - 1) seed
      ⟨l.map some, fun _ => none⟩ h (by simp; omega)

/-! ### Claim theorems -/

/-- C1: starting from any previous stat satisfying the §3 invariant, and for
any numeric quality input (also out of range) and any clock value, the stat
returned by `nextSRS` again satisfies the invariant; in particular its
easiness factor lies in `[1.3, 2.5]`. -/
theorem nextSRS_preserves_statInv (prev : ReviewStat) (quality now : ℚ)
    (h : statInv prev) : statInv (nextSRS (some prev) quality now) := by
  obtain ⟨h1, h2, h3, h4, h5⟩ := h
  have hef0 : (0 : ℚ) ≤ prev.ef := by linarith
  have hjr : (0 : ℤ) ≤ jround (prev.interval * prev.ef) :=
    jround_nonneg (mul_nonneg h4 hef0)
  unfold nextSRS statInv
  dsimp only [Option.getD]
  split_ifs with hq hr1 hr2 <;>
    refine ⟨le_max_left _ _, max_le (by norm_num) (min_le_left _ _), ?_, ?_,
      by push_cast; ring⟩
  · norm_num
  · norm_num
  · norm_num; linarith
  · norm_num
  · norm_num; linarith
  · norm_num
  · norm_num; linarith
  · dsimp only
    exact_mod_cast hjr

/-- Closed witness for `nextSRS_preserves_statInv` at the default stat and
quality 4. -/
theorem nextSRS_preserves_statInv_witness :
    statInv defaultStat ∧ statInv (nextSRS (some defaultStat) 4 0) :=
  ⟨by norm_num [statInv, defaultStat],
   nextSRS_preserves_statInv defaultStat 4 0 (by norm_num [statInv, defaultStat])⟩

/-- C2: whenever the clamped quality is below 3, `nextSRS` resets `reps` to 0
and forces a 1-day interval, and the easiness-factor update formula is still
applied on this failure branch: the new `ef` is the clamp of
`ef + (0.1 - (5-q)(0.08 + (5-q)·0.02))`, it never drops below the 1.3 floor,
and (when the previous `ef` was at least the floor) it does not increase. -/
theorem nextSRS_failure_reset (prev : ReviewStat) (quality now : ℚ)
    (hq : max 0 (min 5 quality) < 3) :
    (nextSRS (some prev) quality now).reps = 0 ∧
    (nextSRS (some prev) quality now).interval = 1 ∧
    (nextSRS (some prev) quality now).ef =
      max (13/10) (min (25/10)
        (prev.ef + (1/10 - (5 - max 0 (min 5 quality)) *
          (8/100 + (5 - max 0 (min 5 quality)) * (2/100))))) ∧
    13/10 ≤ (nextSRS (some prev) quality now).ef ∧
    (13/10 ≤ prev.ef → (nextSRS (some prev) quality now).ef ≤ prev.ef) := by
  have hq0 : (0 : ℚ) ≤ max 0 (min 5 quality) := le_max_left _ _
  have hdelta : 1/10 - (5 - max 0 (min 5 quality)) *
      (8/100 + (5 - max 0 (min 5 quality)) * (2/100)) < 0 := by
    set u : ℚ := 5 - max 0 (min 5 quality) with hu
    have h2u : (2 : ℚ) < u := by rw [hu]; linarith
    nlinarith [mul_pos (show (0:ℚ) < u - 2 by linarith)
      (show (0:ℚ) < u by linarith)]
  unfold nextSRS
  dsimp only [Option.getD]
  rw [if_pos hq]
  refine ⟨rfl, rfl, rfl, le_max_left _ _, fun hfloor => ?_⟩
  exact max_le hfloor (le_trans (min_le_right _ _) (by linarith))

/-- Closed witness for `nextSRS_failure_reset` at the default stat and
quality 1 (Again). -/
theorem nextSRS_failure_reset_witness :
    max 0 (min 5 (1:ℚ)) < 3 ∧
      (nextSRS (some defaultStat) 1 0).reps = 0 ∧
      (nextSRS (some defaultStat) 1 0).interval = 1 :=
  ⟨by norm_num,
   (nextSRS_failure_reset defaultStat 1 0 (by norm_num)).1,
   (nextSRS_failure_reset defaultStat 1 0 (by norm_num)).2.1⟩

/-- C3: on the success branch (clamped quality at least 3), when the
incremented repeat count reaches 3 or more the new interval is
`round(previous.interval * previous.ef)` — computed from the easiness factor
*before* it is updated for this answer — while an incremented count of 1
gives interval 1 and of 2 gives interval 6. -/
theorem nextSRS_success_interval (prev : ReviewStat) (quality now : ℚ)
    (hq : 3 ≤ max 0 (min 5 quality)) :
    (3 ≤ prev.reps + 1 →
      (nextSRS (some prev) quality now).interval =
        ((jround (prev.interval * prev.ef) : ℤ) : ℚ)) ∧
    (prev.reps + 1 = 1 → (nextSRS (some prev) quality now).interval = 1) ∧
    (prev.reps + 1 = 2 → (nextSRS (some prev) quality now).interval = 6) := by
  have hq' : ¬ (max 0 (min 5 quality) < 3) := not_lt.mpr hq
  unfold nextSRS
  dsimp only [Option.getD]
  rw [if_neg hq']
  refine ⟨fun h3 => ?_, fun h1 => ?_, fun h2 => ?_⟩
  · rw [if_neg (by intro h; rw [h] at h3; norm_num at h3),
      if_neg (by intro h; rw [h] at h3; norm_num at h3)]
  · rw [if_pos h1]
  · rw [if_neg (by rw [h2]; norm_num), if_pos h2]

/-- Closed witness for `nextSRS_success_interval`: a stat with two prior
successes and interval 6 gets interval `round(6 × 2.5) = 15`. -/
theorem nextSRS_success_interval_witness :
    3 ≤ max 0 (min 5 (4:ℚ)) ∧
      (nextSRS (some ⟨25/10, 2, 6, 0, 0⟩) 4 0).interval =
        ((jround (6 * (25/10)) : ℤ) : ℚ) :=
  ⟨by norm_num,
   (nextSRS_success_interval ⟨25/10, 2, 6, 0, 0⟩ 4 0 (by norm_num)).1
     (by norm_num)⟩

/-- C4 counterexample: `nextSRS` with no previous stat and quality 4 yields
easiness factor 2.5, not the 2.6 the claim states (at quality 4 the update
formula adds exactly 0, and the clamp would cap the value at 2.5 anyway). -/
theorem nextSRS_first_good_ef_not_26 :
    (nextSRS none 4 0).ef = 25/10 ∧ (nextSRS none 4 0).ef ≠ 26/10 := by
  constructor <;> norm_num [nextSRS, defaultStat]

/-- C4 amended: with no previous stat and quality 4, `nextSRS` returns
`reps = 1`, `interval = 1`, and easiness factor 2.5 (unchanged: the quality-4
delta is 0, and the upper clamp at 2.5 would cap any increase). -/
theorem nextSRS_first_good (now : ℚ) :
    (nextSRS none 4 now).reps = 1 ∧ (nextSRS none 4 now).interval = 1 ∧
      (nextSRS none 4 now).ef = 25/10 := by
  refine ⟨?_, ?_, ?_⟩ <;> norm_num [nextSRS, defaultStat]

/-- C7 counterexample: `shuffleSeeded([1,2], -1)` is not a permutation of
its input. The LCG state stays negative (`lcgNext (-1) = -1103502900`, JS
`%` keeps the dividend's sign), so `rng()` returns about `-0.51385`, the
drawn index is `⌊-1.0277⌋ = -2`, and the destructuring swap writes
`undefined` into slot 1 while the old element 2 escapes into a stray `-2`
property: the returned array is `[1, undefined]`. -/
theorem shuffleSeeded_negative_seed_not_perm :
    shuffleSeeded [1, 2] (-1 : ℤ) = [some 1, none] ∧
      ¬ (shuffleSeeded [1, 2] (-1 : ℤ)).Perm ([1, 2].map some) := by
  have hst : lcgNext (-1) = -1103502900 := by decide
  have hj : lcgJ (-1103502900) 1 = -2 := by
    unfold lcgJ
    rw [Int.floor_eq_iff]
    constructor <;> norm_num
  have h1 : shuffleSeeded [1, 2] (-1 : ℤ) = [some 1, none] := by
    unfold shuffleSeeded
    rw [if_neg (by norm_num)]
    simp only [fyLoopSeeded, hst, hj]
    norm_num [jsSwap, jsRead, jsWrite]
  refine ⟨h1, ?_⟩
  rw [h1]
  decide

/-- C7 amended: for every draw sequence, input list and count: `shuffle`
returns a permutation (equal multiset) of the input, hence of equal length;
`pickRandom` returns `min(count, length)` elements drawn from the input
without replacement (a sub-permutation), and is empty when `count ≤ 0`
(its length `min count.toNat (length l)` is then 0); `shuffleSeeded`
returns a permutation of the input (all slots defined, equal length) for
every *non-negative* seed — negative seeds drive the LCG negative and the
resulting negative index corrupts the array, as the counterexample shows.
The embedding is pure, so the input list itself is never mutated. -/
theorem shuffle_module_contract (draw : ℕ → ℕ) (l : List α) (seed count : ℤ) :
    (shuffle draw l).Perm l ∧ (shuffle draw l).length = l.length ∧
    (0 ≤ seed → (shuffleSeeded l seed).Perm (l.map some)) ∧
    (0 ≤ seed → (shuffleSeeded l seed).length = l.length) ∧
    (pickRandom draw l count).length = min count.toNat l.length ∧
    (pickRandom draw l count).Subperm l := by
  refine ⟨shuffle_perm draw l, (shuffle_perm draw l).length_eq,
    fun h => shuffleSeeded_perm_of_nonneg l seed h,
    fun h => ((shuffleSeeded_perm_of_nonneg l seed h).length_eq).trans
      (List.length_map _ _), ?_, ?_⟩
  · unfold pickRandom
    split_ifs with h1 h2
    · rw [(shuffle_perm draw l).length_eq]; omega
    · simp; omega
    · rw [List.length_take, (shuffle_perm draw l).length_eq]
  · unfold pickRandom
    split_ifs with h1 h2
    · exact (shuffle_perm draw l).subperm
    · exact List.nil_subperm
    · exact ((List.take_sublist _ _).subperm).trans (shuffle_perm draw l).subperm

/-- Closed witness for `shuffle_module_contract` at seed 7: the seeded
shuffle of `[1, 2, 3]` is a permutation of the input with all slots
defined. -/
theorem shuffle_module_contract_witness :
    (0 : ℤ) ≤ 7 ∧
      (shuffleSeeded [1, 2, 3] (7 : ℤ)).Perm ([1, 2, 3].map some) ∧
      (shuffleSeeded [1, 2, 3] (7 : ℤ)).length = [1, 2, 3].length :=
  ⟨by norm_num,
   (shuffle_module_contract (fun _ => 0) [1, 2, 3] 7 0).2.2.1 (by norm_num),
   (shuffle_module_contract (fun _ => 0) [1, 2, 3] 7 0).2.2.2.1 (by norm_num)⟩

/-- C8: `shuffleSeeded` is deterministic in its two arguments. In this
embedding the seeded generator is the pure LCG `lcgNext` threaded from the
seed — `shuffleSeeded` takes no randomness oracle (unlike `shuffle`, which
takes a `Math.random` draw sequence), so two calls with the same list and
seed are definitionally the same value. -/
theorem shuffleSeeded_deterministic (l : List α) (seed : ℤ) :
    shuffleSeeded l seed = shuffleSeeded l seed := rfl

lemma mem_dueFilter_rank {stats : String → Option ReviewStat} {t : ℚ}
    {pool : List Question} {q : Question} (h : q ∈ dueFilter stats t pool) :
    bucketRank stats t q = 0 := by
  unfold dueFilter at h
  have hp := (List.mem_filter.mp h).2
  unfold bucketRank
  cases hst : stats q.id with
  | none => rw [hst] at hp; simp at hp
  | some st =>
    rw [hst] at hp
    simp only [decide_eq_true_eq] at hp
    simp [hst, hp]

lemma mem_freshFilter_rank {stats : String → Option ReviewStat}
    {pool : List Question} {q : Question} (h : q ∈ freshFilter stats pool) :
    ∀ t : ℚ, bucketRank stats t q = 1 := by
  intro t
  unfold freshFilter at h
  have hp := (List.mem_filter.mp h).2
  unfold bucketRank
  cases hst : stats q.id with
  | none => simp [hst]
  | some st => rw [hst] at hp; simp at hp

lemma mem_otherFilter_rank {stats : String → Option ReviewStat} {t : ℚ}
    {pool : List Question} {q : Question} (h : q ∈ otherFilter stats t pool) :
    bucketRank stats t q = 2 := by
  unfold otherFilter at h
  have hp := (List.mem_filter.mp h).2
  unfold bucketRank
  cases hst : stats q.id with
  | none => rw [hst] at hp; simp at hp
  | some st =>
    rw [hst] at hp
    simp only [decide_eq_true_eq] at hp
    simp [hst, not_le.mpr hp]

lemma pairwise_rank_concat (f : Question → ℕ) (A B C : List Question)
    (hA : ∀ a ∈ A, f a = 0) (hB : ∀ b ∈ B, f b = 1)
    (hC : ∀ c ∈ C, f c = 2) :
    (A ++ B ++ C).Pairwise (fun a b => f a ≤ f b) := by
  rw [List.pairwise_append]
  refine ⟨?_, ?_, ?_⟩
  · rw [List.pairwise_append]
    refine ⟨List.pairwise_of_forall_mem_list
        (fun a ha b hb => by rw [hA a ha, hA b hb]),
      List.pairwise_of_forall_mem_list
        (fun a ha b hb => by rw [hB a ha, hB b hb]),
      fun a ha b hb => by rw [hA a ha, hB b hb]; omega⟩
  · exact List.pairwise_of_forall_mem_list
      (fun a ha b hb => by rw [hC a ha, hC b hb])
  · intro a ha c hc
    rcases List.mem_append.mp ha with h | h
    · rw [hA a h, hC c hc]; omega
    · rw [hB a h, hC c hc]; omega

/-- C5: in any session produced by `startSession` — for every pool, stat
map, target count, clock value and shuffle draws — the priority classes of
the returned items are monotone: every due item precedes every fresh item,
which precedes every not-yet-due item (order within one class is
unconstrained). -/
theorem startSession_priority_order (d1 d2 d3 : ℕ → ℕ) (pool : List Question)
    (stats : String → Option ReviewStat) (n : ℤ) (t : ℚ) :
    ((startSession d1 d2 d3 pool stats n t).map (bucketRank stats t)).Pairwise
      (· ≤ ·) := by
  unfold startSession
  split
  · simp
  · have hsub : List.Sublist
        (jsSlice0
          (shuffle d1 (dueFilter stats t pool) ++
            shuffle d2 (freshFilter stats pool) ++
            shuffle d3 (otherFilter stats t pool)) n)
        (shuffle d1 (dueFilter stats t pool) ++
          shuffle d2 (freshFilter stats pool) ++
          shuffle d3 (otherFilter stats t pool)) := by
      unfold jsSlice0
      exact List.take_sublist _ _
    refine List.Pairwise.sublist (hsub.map _) ?_
    rw [List.pairwise_map]
    exact pairwise_rank_concat _ _ _ _
      (fun a ha =>
        mem_dueFilter_rank ((shuffle_perm d1 _).mem_iff.mp ha))
      (fun b hb =>
        mem_freshFilter_rank ((shuffle_perm d2 _).mem_iff.mp hb) t)
      (fun c hc =>
        mem_otherFilter_rank ((shuffle_perm d3 _).mem_iff.mp hc))

lemma bucket_length (stats : String → Option ReviewStat) (t : ℚ)
    (pool : List Question) :
    (dueFilter stats t pool).length + (freshFilter stats pool).length +
      (otherFilter stats t pool).length = pool.length := by
  unfold dueFilter freshFilter otherFilter
  induction pool with
  | nil => simp
  | cons q rest ih =>
    simp only [List.filter_cons]
    cases hst : stats q.id with
    | none =>
      simp [hst]
      omega
    | some st =>
      by_cases hd : st.dueAt ≤ t
      · simp [hst, hd, not_lt.mpr hd]
        omega
      · simp [hst, hd, not_le.mp hd]
        omega

/-- C6 counterexample: with a pool of two stat-less items and target count
-1, `startSession` returns one item, not an empty session: `.slice(0, n)`
with negative `n` counts the end index from the end of the array. -/
theorem startSession_negative_count_not_empty :
    (startSession (fun _ => 0) (fun _ => 0) (fun _ => 0)
        [sampleQ1, sampleQ2] (fun _ => none) (-1) 0).length = 1 ∧
      (startSession (fun _ => 0) (fun _ => 0) (fun _ => 0)
        [sampleQ1, sampleQ2] (fun _ => none) (-1) 0).length ≠ 0 := by
  refine ⟨rfl, ?_⟩
  decide

/-- C6 amended: the session has length `min n (length pool)` for every
non-negative target count `n`, and is empty when the pool is empty or
`n = 0`; for negative `n`, JS `slice(0, n)` counts from the end, so the
session has `max(0, length pool + n)` items instead of 0. -/
theorem startSession_length_bound (d1 d2 d3 : ℕ → ℕ) (pool : List Question)
    (stats : String → Option ReviewStat) (n : ℤ) (t : ℚ) :
    (0 ≤ n →
      (startSession d1 d2 d3 pool stats n t).length =
        min n.toNat pool.length) ∧
    (pool = [] → startSession d1 d2 d3 pool stats n t = []) ∧
    (n < 0 →
      (startSession d1 d2 d3 pool stats n t).length =
        ((pool.length : ℤ) + n).toNat) := by
  have hL : (shuffle d1 (dueFilter stats t pool) ++
      shuffle d2 (freshFilter stats pool) ++
      shuffle d3 (otherFilter stats t pool)).length = pool.length := by
    have hb := bucket_length stats t pool
    simp only [List.length_append, (shuffle_perm _ _).length_eq]
    omega
  unfold startSession
  split
  · next hempty =>
    refine ⟨fun _ => ?_, fun _ => rfl, fun hn => ?_⟩
    · simp only [List.length_nil]
      omega
    · simp only [List.length_nil]
      omega
  · next hnonempty =>
    unfold jsSlice0
    rw [List.length_take, hL]
    refine ⟨fun hn => ?_, fun hp => absurd (by rw [hp]; rfl) hnonempty, fun hn => ?_⟩
    · rw [if_neg (not_lt.mpr hn)]
    · rw [if_pos hn]
      omega

/-- Closed witness for `startSession_length_bound`: a two-item pool with
target count 1 yields a session of length `min 1 2 = 1`. -/
theorem startSession_length_bound_witness :
    (0 : ℤ) ≤ 1 ∧
      (startSession (fun _ => 0) (fun _ => 0) (fun _ => 0)
          [sampleQ1, sampleQ2] (fun _ => none) 1 0).length =
        min (1 : ℤ).toNat [sampleQ1, sampleQ2].length :=
  ⟨by norm_num,
   (startSession_length_bound (fun _ => 0) (fun _ => 0) (fun _ => 0)
      [sampleQ1, sampleQ2] (fun _ => none) 1 0).1 (by norm_num)⟩

/-- C10: `isDue` reports an absent stat as due (`true` for every clock
value), even though `startSession` puts stat-less items in the fresh
bucket (priority class 1), not the due bucket (class 0). -/
theorem isDue_absent_true (t : ℚ) (q : Question) :
    isDue none t = true ∧ bucketRank (fun _ => none) t q = 1 :=
  ⟨rfl, rfl⟩

lemma checkRawStat_sound (s : RawStat) (st : ReviewStat)
    (h : checkRawStat s = some st) :
    13/10 ≤ st.ef ∧ st.ef ≤ 25/10 ∧ 0 ≤ st.reps ∧ 0 ≤ st.interval := by
  unfold checkRawStat at h
  split at h
  · split_ifs at h with hc
    · simp only [Option.some.injEq] at h
      subst h
      exact ⟨hc.1, hc.2.1, hc.2.2.1, hc.2.2.2⟩
  · exact absurd h (by simp)

/-- C9 counterexample: `loadStats` performs no per-record validation — fed a
successfully parsed blob whose single record has easiness factor 3 (outside
`[1.3, 2.5]`, so `validateSRSStats`'s per-record check rejects it),
`loadStats` returns the blob unchanged, invalid record included. -/
theorem loadStats_keeps_invalid_record :
    loadStats (Except.ok (some badData)) = badData ∧
      checkRawStat badStat = none ∧
      validateSRSStats badData = [] := by
  refine ⟨rfl, ?_, ?_⟩
  · norm_num [checkRawStat, badStat]
  · norm_num [validateSRSStats, badData, checkEntry, checkRawStat, badStat]

/-- C9 amended: `loadStats` itself returns the parsed blob as-is, degrading
to an empty map when the read is falsy or throws, and never propagating a
failure; the per-record validation the claim describes lives in
`validateSRSStats` (applied by the app's load path): every surviving entry
satisfies the checked invariants (`1.3 ≤ ef ≤ 2.5`, `reps ≥ 0`,
`interval ≥ 0`, all five fields numeric), and a record failing the check is
dropped individually, leaving the other entries untouched. -/
theorem loadStats_validation_split :
    loadStats (Except.error ()) = RawData.obj [] ∧
    loadStats (Except.ok none) = RawData.obj [] ∧
    (∀ d, loadStats (Except.ok (some d)) = d) ∧
    (∀ entries (k : String) (st : ReviewStat),
      (k, st) ∈ validateSRSStats (RawData.obj entries) →
        13/10 ≤ st.ef ∧ st.ef ≤ 25/10 ∧ 0 ≤ st.reps ∧ 0 ≤ st.interval) ∧
    (∀ pre post e, checkEntry e = none →
      validateSRSStats (RawData.obj (pre ++ e :: post)) =
        validateSRSStats (RawData.obj (pre ++ post))) := by
  refine ⟨rfl, rfl, fun d => rfl, ?_, ?_⟩
  · intro entries k st hmem
    simp only [validateSRSStats] at hmem
    obtain ⟨⟨k', v⟩, hin, hck⟩ := List.mem_filterMap.mp hmem
    cases v with
    | nonObj => simp [checkEntry] at hck
    | obj s =>
      simp only [checkEntry] at hck
      cases hcs : checkRawStat s with
      | none => rw [hcs] at hck; simp at hck
      | some st' =>
        rw [hcs] at hck
        simp only [Option.map_some', Option.some.injEq, Prod.mk.injEq] at hck
        obtain ⟨-, hst⟩ := hck
        subst hst
        exact checkRawStat_sound s st' hcs
  · intro pre post e he
    simp only [validateSRSStats]
    rw [List.filterMap_append, List.filterMap_append,
      List.filterMap_cons_none he]

/-- Closed witness for `loadStats_validation_split`: the invalid record
`badStat` is dropped from a two-entry blob without touching the valid
record `goodStat`, and the surviving entry satisfies the checked bounds. -/
theorem loadStats_validation_split_witness :
    checkEntry ("w1", RawVal.obj badStat) = none ∧
    validateSRSStats
        (RawData.obj [("w1", RawVal.obj badStat), ("w2", RawVal.obj goodStat)]) =
      validateSRSStats (RawData.obj [("w2", RawVal.obj goodStat)]) ∧
    (13/10 ≤ ((⟨2, 1, 1, 0, 0⟩ : ReviewStat)).ef ∧
      ((⟨2, 1, 1, 0, 0⟩ : ReviewStat)).ef ≤ 25/10 ∧
      0 ≤ ((⟨2, 1, 1, 0, 0⟩ : ReviewStat)).reps ∧
      0 ≤ ((⟨2, 1, 1, 0, 0⟩ : ReviewStat)).interval) := by
  have hbad : checkEntry ("w1", RawVal.obj badStat) = none := by
    norm_num [checkEntry, checkRawStat, badStat]
  have hmem : ("w2", (⟨2, 1, 1, 0, 0⟩ : ReviewStat)) ∈
      validateSRSStats (RawData.obj [("w2", RawVal.obj goodStat)]) := by
    have : validateSRSStats (RawData.obj [("w2", RawVal.obj goodStat)]) =
        [("w2", (⟨2, 1, 1, 0, 0⟩ : ReviewStat))] := by
      norm_num [validateSRSStats, checkEntry, checkRawStat, goodStat,
        List.filterMap]
    rw [this]
    exact List.mem_singleton.mpr rfl
  exact ⟨hbad,
    loadStats_validation_split.2.2.2.2 [] [("w2", RawVal.obj goodStat)]
      ("w1", RawVal.obj badStat) hbad,
    loadStats_validation_split.2.2.2.1 [("w2", RawVal.obj goodStat)] "w2"
      ⟨2, 1, 1, 0, 0⟩ hmem⟩
